import Mathlib

/-!
Verification of the "Pesten" card-game engine (src/script.js).

The JavaScript source is shallowly embedded: every random primitive
(Fisher-Yates shuffle, random hand index, random start seat) takes an
explicit choice argument, array mutation becomes functional update, and
JavaScript `undefined` flowing through card slots is modelled with
`Option Card` (the deck and the discard pile hold `Option Card` entries
because the source can push a popped-from-empty `undefined` into them;
hands hold plain `Card`s because `receiveCard` guards against null).
A thrown `TypeError` is modelled by the `PlayOutcome.threw` result.
-/

namespace Pesten

/-- Suits of src/script.js: `SUITS = ['H','S','R','K']`; `'J'` is the
pseudo-suit carried by the two jokers (`new Card('J','X')`). -/
inductive Suit
  | H | S | R | K | J
deriving DecidableEq, Fintype

/-- Ranks: `VALUES = ['2',...,'10','J','Q','K','A']` plus the joker rank `'X'`. -/
inductive Value
  | v2 | v3 | v4 | v5 | v6 | v7 | v8 | v9 | v10 | vJ | vQ | vK | vA | vX
deriving DecidableEq, Fintype

/-- `class Card { constructor(suit, value) ... }` -/
structure Card where
  suit : Suit
  value : Value
deriving DecidableEq, Fintype

def SUITS : List Suit := [.H, .S, .R, .K]

def VALUES : List Value :=
  [.v2, .v3, .v4, .v5, .v6, .v7, .v8, .v9, .v10, .vJ, .vQ, .vK, .vA]

/-- `Deck.reset()`: all 52 suit-rank cards in nested-loop order, then two jokers. -/
def fullDeck : List Card :=
  (SUITS.map (fun s => VALUES.map (fun v => Card.mk s v))).flatten
    ++ [Card.mk .J .vX, Card.mk .J .vX]

/-- The JS destructuring swap `[a[i],a[j]] = [a[j],a[i]]` inside `Deck.shuffle`. -/
def listSwap (l : List α) (i j : Nat) : List α :=
  match l[i]?, l[j]? with
  | some a, some b => (l.set i b).set j a
  | _, _ => l

/-- The loop of `Deck.shuffle`: `for (i = n-1; i > 0; i--) swap(i, rand(i+1))`,
with `Math.floor(Math.random()*(i+1))` injected as `f i % (i+1)`. -/
def shuffleGo (f : Nat → Nat) : List α → Nat → List α
  | l, 0 => l
  | l, n+1 => shuffleGo f (listSwap l (n+1) (f (n+1) % (n+2))) n

/-- `Deck.shuffle()` with the random source injected. -/
def shuffleWith (f : Nat → Nat) (l : List α) : List α :=
  shuffleGo f l (l.length - 1)

/-- `Player.receiveCard(card)`: `if (card) this.hand.push(card)`. -/
def receiveCard (hand : List Card) (card : Option Card) : List Card :=
  match card with
  | some c => hand ++ [c]
  | none => hand

/-- `Player.playCard(index)`: `this.hand.splice(index, 1)[0]` — the returned
card (`undefined` when the index is out of range) and the remaining hand. -/
def playCard (hand : List Card) (index : Nat) : Option Card × List Card :=
  (hand[index]?, hand.eraseIdx index)

/-- `Player.removeOneRandomCard()` with the random index injected as `r`. -/
def removeOneRandomCard (r : Nat) (hand : List Card) : Option Card × List Card :=
  if hand.length = 0 then (none, hand)
  else playCard hand (r % hand.length)

/-- Game state: the fields of `class Game` that carry game logic (the `ui`
field and the players' `id`/`name` are presentation-only and omitted).
`currentPlayerIndex` is kept in `Fin 4` because the source's wrap-around
(`if (i >= 4) i = 0; if (i < 0) i = 3;`) maps every integer into `[0,3]`. -/
structure GameState where
  deck : List (Option Card)
  hands : Fin 4 → List Card
  discardPile : List (Option Card)
  currentPlayerIndex : Fin 4
  direction : Int
  gameOver : Bool

/-- The wrap-around applied after `currentPlayerIndex += direction`:
`if (i >= 4) i = 0; if (i < 0) i = 3;`. -/
def wrapIdx (i : Int) : Fin 4 :=
  if h4 : 4 ≤ i then 0
  else if h0 : i < 0 then 3
  else ⟨i.toNat, by omega⟩

/-- `Game.advancePointer()`. -/
def advancePointer (g : GameState) : GameState :=
  { g with currentPlayerIndex := wrapIdx ((g.currentPlayerIndex : Nat) + g.direction) }

/-- `Game.handleWin(winnerIndex)` — only `gameOver = true` is engine state;
the winner banner is presentation. -/
def handleWin (g : GameState) : GameState :=
  { g with gameOver := true }

/-- `Game.nextTurn()`: stop if over; declare a win if the current hand is
empty; otherwise advance the pointer with wrap-around (AI scheduling and
rendering are presentation). -/
def nextTurn (g : GameState) : GameState :=
  if g.gameOver then g
  else if (g.hands g.currentPlayerIndex).length = 0 then handleWin g
  else advancePointer g

/-- `Game.getTopCard()`: `discardPile[discardPile.length - 1]` — `none` when
the pile is empty, `some none` when the top entry is a pushed `undefined`. -/
def getTopCard (g : GameState) : Option (Option Card) :=
  g.discardPile.getLast?

/-- The pure core of `Game.isValidMove(card)` once both the top card and the
candidate are defined: the four rule checks in source order. -/
def isValidMove (top card : Card) : Bool :=
  if top.value = .vX ∨ top.value = .vJ then true
  else if card.value = .vX ∨ card.value = .vJ then true
  else if card.value = top.value then true
  else if card.suit = top.suit then true
  else false

/-- `Game.isValidMove(card)` as executed on the state: reading `.value` of an
`undefined` top (empty pile or `undefined` entry) throws, as does reading
`.value` of an `undefined` candidate when the top is not a joker/jack;
`none` models the thrown `TypeError`. -/
def isValidMoveG (g : GameState) (card : Option Card) : Option Bool :=
  match getTopCard g with
  | none => none
  | some none => none
  | some (some top) =>
    if top.value = .vX ∨ top.value = .vJ then some true
    else
      match card with
      | none => none
      | some c => some (isValidMove top c)

/-- `Game.recycleDeck()`: keep the top discard, append the rest to the deck
(`addCards`), shuffle; a no-op when the pile has at most one entry. -/
def recycleDeck (f : Nat → Nat) (deck discard : List (Option Card)) :
    List (Option Card) × List (Option Card) :=
  if discard.length ≤ 1 then (deck, discard)
  else (shuffleWith f (deck ++ discard.dropLast), discard.getLast?.toList)

/-- One iteration of the `Game.forceDraw` loop plus the final state of the
loop: `amt` draws, each preceded by a recycle attempt when the deck is
empty; `σ k` supplies the shuffle randomness of the k-th recycle.
Returns (deck, discardPile, victim hand). -/
def forceDrawAux (σ : Nat → Nat → Nat) :
    Nat → Nat → List (Option Card) → List (Option Card) → List Card →
    List (Option Card) × List (Option Card) × List Card
  | _, 0, deck, discard, hand => (deck, discard, hand)
  | k, n+1, deck, discard, hand =>
    let rec' : List (Option Card) × List (Option Card) × Nat :=
      if deck.length = 0 then
        let r := recycleDeck (σ k) deck discard
        (r.1, r.2, k+1)
      else (deck, discard, k)
    forceDrawAux σ rec'.2.2 n rec'.1.dropLast rec'.2.1
      (receiveCard hand rec'.1.getLast?.join)

/-- `Game.forceDraw(amount)`: the victim is the current player (the pointer
was already advanced by the caller). -/
def forceDraw (σ : Nat → Nat → Nat) (amount : Nat) (g : GameState) : GameState :=
  let v := g.currentPlayerIndex
  let r := forceDrawAux σ 0 amount g.deck g.discardPile (g.hands v)
  { g with deck := r.1, discardPile := r.2.1,
           hands := Function.update g.hands v r.2.2 }

/-- The body of the second loop of `Game.handlePassCardRule`: seat `i`'s
removed card (if any) is appended to the hand of the wrapped
`i + direction` seat. -/
def passStep (dir : Int) (passed : Fin 4 → Option Card)
    (hs : Fin 4 → List Card) (i : Fin 4) : Fin 4 → List Card :=
  match passed i with
  | none => hs
  | some c =>
    let nxt := wrapIdx ((i : Nat) + dir)
    Function.update hs nxt (hs nxt ++ [c])

/-- `Game.handlePassCardRule()`: phase 1 removes one random card from every
seat (`π s` injects seat s's random index); phase 2 walks seats 0..3 handing
each removed card to the wrapped `i + direction` seat. -/
def handlePassCardRule (π : Fin 4 → Nat) (g : GameState) : GameState :=
  let passed : Fin 4 → Option Card := fun s => (removeOneRandomCard (π s) (g.hands s)).1
  let hands1 : Fin 4 → List Card := fun s => (removeOneRandomCard (π s) (g.hands s)).2
  { g with hands := (List.finRange 4).foldl (passStep g.direction passed) hands1 }

/-- `Game.executeDraw(playerIndex)`: recycle when the deck is empty, pop the
deck (possibly `undefined`), hand the result to the player, `nextTurn()`.
Note: no `gameOver` guard exists here in the source. -/
def executeDraw (σ : Nat → Nat) (g : GameState) (p : Fin 4) : GameState :=
  let g1 :=
    if g.deck.length = 0 then
      let r := recycleDeck σ g.deck g.discardPile
      { g with deck := r.1, discardPile := r.2 }
    else g
  let card := g1.deck.getLast?
  nextTurn { g1 with deck := g1.deck.dropLast,
                     hands := Function.update g1.hands p
                       (receiveCard (g1.hands p) card.join) }

/-- `Game.handleDrawCard()`: the deck's click handler — only seat 0 may
trigger it; it does not check `gameOver`. -/
def handleDrawCard (σ : Nat → Nat) (g : GameState) : GameState :=
  if g.currentPlayerIndex ≠ 0 then g
  else executeDraw σ g g.currentPlayerIndex

/-- Observable result of `Game.handleCardPlay`: the source returns
`undefined` (game over guard), `false` (invalid move) or `true`; `threw`
models an uncaught `TypeError` (reading `.value` of `undefined`). -/
inductive PlayOutcome
  | returnedNone | returnedFalse | returnedTrue | threw
deriving DecidableEq

/-- The `switch (card.value)` of `Game.handleCardPlay` followed by the
generic `this.nextTurn()` (wired per branch exactly as the source's
control flow: `K` returns early, all other branches fall through into
`nextTurn`). -/
def effectDispatch (σ : Nat → Nat → Nat) (π : Fin 4 → Nat) (c : Card)
    (g1 : GameState) : GameState × PlayOutcome :=
  match c.value with
  | .v2 => (nextTurn (forceDraw σ 2 (advancePointer g1)), .returnedTrue)
  | .vX => (nextTurn (forceDraw σ 5 (advancePointer g1)), .returnedTrue)
  | .v8 => (nextTurn (advancePointer g1), .returnedTrue)
  | .vA => (nextTurn { g1 with direction := g1.direction * -1 }, .returnedTrue)
  | .v10 => (nextTurn (handlePassCardRule π g1), .returnedTrue)
  | .vK => (g1, .returnedTrue)
  | _ => (nextTurn g1, .returnedTrue)

/-- The part of `Game.handleCardPlay` after a successful validity check:
splice the slot out of the hand, push it onto the discard pile, win check,
then `switch` on the card (reading `.value` of an `undefined` slot throws). -/
def playValid (σ : Nat → Nat → Nat) (π : Fin 4 → Nat) (g : GameState)
    (p : Fin 4) (i : Nat) : GameState × PlayOutcome :=
  let card := (g.hands p)[i]?
  let g1 := { g with hands := Function.update g.hands p ((g.hands p).eraseIdx i),
                     discardPile := g.discardPile ++ [card] }
  if (g1.hands p).length = 0 then (handleWin g1, .returnedTrue)
  else
    match card with
    | none => (g1, .threw)
    | some c => effectDispatch σ π c g1

/-- `Game.handleCardPlay(playerIndex, cardIndex)`: the full play pipeline —
game-over guard, validity check, then `playValid`. There is no
current-player check and no index-range check in the source. -/
def handleCardPlay (σ : Nat → Nat → Nat) (π : Fin 4 → Nat) (g : GameState)
    (p : Fin 4) (i : Nat) : GameState × PlayOutcome :=
  if g.gameOver then (g, .returnedNone)
  else
    match isValidMoveG g ((g.hands p)[i]?) with
    | none => (g, .threw)
    | some false => (g, .returnedFalse)
    | some true => playValid σ π g p i

/-- `Game.playAiTurn()`: play the first valid card, else draw; guarded by
`gameOver`. `findIndex` throws (via `isValidMove`) only when the hand is
non-empty and the top is `undefined`. -/
def playAiTurn (σ : Nat → Nat → Nat) (π : Fin 4 → Nat) (g : GameState) :
    GameState × PlayOutcome :=
  if g.gameOver then (g, .returnedNone)
  else
    let hand := g.hands g.currentPlayerIndex
    if hand.length = 0 then (executeDraw (σ 0) g g.currentPlayerIndex, .returnedNone)
    else
      match getTopCard g with
      | none => (g, .threw)
      | some none => (g, .threw)
      | some (some top) =>
        match hand.findIdx? (fun c => isValidMove top c) with
        | some j => handleCardPlay σ π g g.currentPlayerIndex j
        | none => (executeDraw (σ 0) g g.currentPlayerIndex, .returnedNone)

/-- One round of the deal loop body `players.forEach(p => p.receiveCard(this.deck.draw()))`
for a single player. -/
def dealOne (dh : List (Option Card) × (Fin 4 → List Card)) (p : Fin 4) :
    List (Option Card) × (Fin 4 → List Card) :=
  (dh.1.dropLast, Function.update dh.2 p (receiveCard (dh.2 p) dh.1.getLast?.join))

/-- One full `forEach` round: every seat draws once, in seat order. -/
def dealRound (dh : List (Option Card) × (Fin 4 → List Card)) :
    List (Option Card) × (Fin 4 → List Card) :=
  (List.finRange 4).foldl dealOne dh

/-- `Game.init()`: shuffle the deck *as it currently is* (no reset), clear
pile and hands, pick the random start seat, deal 7 rounds, flip one card.
`gameOver` and `direction` are not touched by `init` in the source. -/
def Game.init (f : Nat → Nat) (r : Nat) (g : GameState) : GameState :=
  let deck1 := shuffleWith f g.deck
  let dh := (List.range 7).foldl (fun dh _ => dealRound dh) (deck1, fun _ => [])
  { deck := dh.1.dropLast,
    hands := dh.2,
    discardPile := [dh.1.getLast?.join],
    currentPlayerIndex := ⟨r % 4, Nat.mod_lt r (by omega)⟩,
    direction := g.direction,
    gameOver := g.gameOver }

/-- The state built by `new Game()` before its `init()` call: fresh 54-card
deck, empty hands and pile, seat 0, clockwise, not over. -/
def constructedState : GameState :=
  { deck := fullDeck.map some,
    hands := fun _ => [],
    discardPile := [],
    currentPlayerIndex := 0,
    direction := 1,
    gameOver := false }

/-- A freshly initialised game: `new Game()` = construct then `init()`. -/
def mkGame (f : Nat → Nat) (r : Nat) : GameState :=
  Game.init f r constructedState

/-! ### Card accounting -/

/-- The multiset of real cards sitting in a list of optional card slots. -/
def slotCards (l : List (Option Card)) : Multiset Card :=
  (l.filterMap id : List Card)

/-- The multiset of cards in the four hands. -/
def sumHands (h : Fin 4 → List Card) : Multiset Card :=
  ∑ i : Fin 4, (↑(h i) : Multiset Card)

/-- All cards anywhere in the state: deck, discard pile, four hands. -/
def stateCards (g : GameState) : Multiset Card :=
  slotCards g.deck + slotCards g.discardPile + sumHands g.hands

/-- The fixed 54-card universe. -/
def cardUniverse : Multiset Card := (fullDeck : List Card)

/-- Every slot of the list holds a real card (no `undefined` entries). -/
def AllSome (l : List (Option Card)) : Prop := ∀ x ∈ l, x.isSome

instance (l : List (Option Card)) : Decidable (AllSome l) :=
  List.decidableBAll _ l

/-- The per-recycle shuffle randomness, the pass-rule randomness, and the
loose indices with which the public operations can be called are all
existentially quantified: `Step g g'` holds when some call of a public
operation (a card play by any seat at any index, the human deck click, a
draw executed for a seat, an AI turn, a forced draw, the pass-around, or a
deck recycle) turns `g` into `g'`. -/
inductive Step : GameState → GameState → Prop
  | play (σ : Nat → Nat → Nat) (π : Fin 4 → Nat) (g : GameState) (p : Fin 4) (i : Nat) :
      Step g (handleCardPlay σ π g p i).1
  | drawClick (σ : Nat → Nat) (g : GameState) : Step g (handleDrawCard σ g)
  | draw (σ : Nat → Nat) (g : GameState) (p : Fin 4) : Step g (executeDraw σ g p)
  | ai (σ : Nat → Nat → Nat) (π : Fin 4 → Nat) (g : GameState) :
      Step g (playAiTurn σ π g).1
  | force (σ : Nat → Nat → Nat) (amt : Nat) (g : GameState) : Step g (forceDraw σ amt g)
  | pass (π : Fin 4 → Nat) (g : GameState) : Step g (handlePassCardRule π g)
  | recycle (σ : Nat → Nat) (g : GameState) :
      Step g { g with deck := (recycleDeck σ g.deck g.discardPile).1,
                      discardPile := (recycleDeck σ g.deck g.discardPile).2 }

/-- States reachable from some freshly initialised game (`new Game()`) by the
public operations. -/
inductive Reachable : GameState → Prop
  | init (f : Nat → Nat) (r : Nat) : Reachable (mkGame f r)
  | step {g g' : GameState} : Reachable g → Step g g' → Reachable g'

/-! ### Concrete sample states used by the closed witness theorems -/

/-- A trivial recycle-shuffle random source. -/
def σ0 : Nat → Nat → Nat := fun _ _ => 0

/-- A trivial pass-rule random source. -/
def π0 : Fin 4 → Nat := fun _ => 0

/-- A trivial shuffle random source. -/
def f0 : Nat → Nat := fun _ => 0

/-- Seat 0 holds only the two of hearts and it is seat 0's turn;
the discard top is the nine of hearts. -/
def gC3 : GameState :=
  { deck := [some (Card.mk .S .v5)],
    hands := fun s => if s = 0 then [Card.mk .H .v2] else [Card.mk .S .v7],
    discardPile := [some (Card.mk .H .v9)],
    currentPlayerIndex := 0,
    direction := 1,
    gameOver := false }

/-- It is seat 1's turn, but seat 0 holds a card matching the discard top. -/
def gC4 : GameState :=
  { deck := [],
    hands := fun s => if s = 0 then [Card.mk .H .v5, Card.mk .S .v9] else [Card.mk .K .v7],
    discardPile := [some (Card.mk .H .v3)],
    currentPlayerIndex := 1,
    direction := 1,
    gameOver := false }

/-- A non-matching candidate for the witness of the amended C4:
seat 2 holds the seven of clubs against a three-of-hearts top. -/
def gC4b : GameState :=
  { deck := [],
    hands := fun _ => [Card.mk .K .v7],
    discardPile := [some (Card.mk .H .v3)],
    currentPlayerIndex := 2,
    direction := 1,
    gameOver := false }

/-- Seat 0's two of hearts against a nine-of-hearts top with a rich deck:
playing it forces seat 1 to draw two. -/
def gC5 : GameState :=
  { deck := [some (Card.mk .S .v5), some (Card.mk .R .v6), some (Card.mk .K .v9)],
    hands := fun s => if s = 0 then [Card.mk .H .v2, Card.mk .H .v8] else [Card.mk .S .v7],
    discardPile := [some (Card.mk .H .v9)],
    currentPlayerIndex := 0,
    direction := 1,
    gameOver := false }

/-- A mid-game state for the pass-around witness. -/
def gC6 : GameState :=
  { deck := [some (Card.mk .S .v5)],
    hands := fun s => if s = 0 then [Card.mk .H .v4, Card.mk .H .v8]
                      else if s = 1 then [] else [Card.mk .S .v7],
    discardPile := [some (Card.mk .H .v9)],
    currentPlayerIndex := 0,
    direction := 1,
    gameOver := false }

/-- Seat 0 has just won (empty hand, `gameOver` set, pointer still on 0),
and a card remains in the deck. -/
def gC7 : GameState :=
  { deck := [some (Card.mk .R .v4)],
    hands := fun s => if s = 0 then [] else [Card.mk .K .v7],
    discardPile := [some (Card.mk .H .v3)],
    currentPlayerIndex := 0,
    direction := 1,
    gameOver := true }

/-- An exhausted table: empty deck and a single-card discard pile. -/
def gC8 : GameState :=
  { deck := [],
    hands := fun _ => [Card.mk .K .v7, Card.mk .H .v4],
    discardPile := [some (Card.mk .H .v3)],
    currentPlayerIndex := 1,
    direction := 1,
    gameOver := false }

/-- An empty deck with a two-card discard pile: a draw must recycle. -/
def gC8b : GameState :=
  { deck := [],
    hands := fun _ => [Card.mk .K .v7],
    discardPile := [some (Card.mk .R .v9), some (Card.mk .H .v3)],
    currentPlayerIndex := 3,
    direction := 1,
    gameOver := false }

/-- A post-game state on which `init()` could be called again: the deck is
empty and `gameOver` is set. -/
def gC9 : GameState :=
  { deck := [],
    hands := fun _ => [Card.mk .K .v7],
    discardPile := [some (Card.mk .H .v3)],
    currentPlayerIndex := 2,
    direction := -1,
    gameOver := true }

theorem cons_set_perm (a : α) (l : List α) :
    ∀ (k : Nat) (b : α), l[k]? = some b → (b :: l.set k a).Perm (a :: l) := by
  induction l with
  | nil => intro k b h; simp at h
  | cons x t ih =>
    intro k b h
    cases k with
    | zero =>
      simp at h
      subst h
      simpa [List.set] using List.Perm.swap a x t
    | succ k =>
      simp at h
      have h1 : (b :: x :: t.set k a).Perm (x :: b :: t.set k a) := List.Perm.swap x b _
      have h2 : (x :: b :: t.set k a).Perm (x :: a :: t) := (ih k b h).cons x
      have h3 : (x :: a :: t).Perm (a :: x :: t) := List.Perm.swap a x t
      simpa [List.set] using (h1.trans h2).trans h3

theorem listSwap_perm (l : List α) (i j : Nat) : (listSwap l i j).Perm l := by
  unfold listSwap
  rcases h1 : l[i]? with _ | a
  · simp
  rcases h2 : l[j]? with _ | b
  · simp
  simp only []
  by_cases hij : i = j
  · subst hij
    rw [h1] at h2
    cases h2
    rw [List.set_set]
    exact (List.perm_cons a).1 (cons_set_perm a l i a h1)
  · have h2' : (l.set i b)[j]? = some b := by
      rw [List.getElem?_set_ne hij]; exact h2
    have c1 : (b :: (l.set i b).set j a).Perm (a :: l.set i b) :=
      cons_set_perm a (l.set i b) j b h2'
    have c2 : (a :: l.set i b).Perm (b :: l) := cons_set_perm b l i a h1
    exact (List.perm_cons b).1 (c1.trans c2)

theorem shuffleGo_perm (f : Nat → Nat) : ∀ (n : Nat) (l : List α), (shuffleGo f l n).Perm l := by
  intro n
  induction n with
  | zero => intro l; simp [shuffleGo]
  | succ n ih =>
    intro l
    exact (ih _).trans (listSwap_perm l (n+1) (f (n+1) % (n+2)))

theorem shuffleWith_perm (f : Nat → Nat) (l : List α) : (shuffleWith f l).Perm l :=
  shuffleGo_perm f _ l

theorem shuffleWith_length (f : Nat → Nat) (l : List α) :
    (shuffleWith f l).length = l.length :=
  (shuffleWith_perm f l).length_eq

theorem dropLast_append_getLastToList (l : List α) :
    l.dropLast ++ l.getLast?.toList = l := by
  rcases h : l.getLast? with _ | a
  · rw [List.getLast?_eq_none_iff] at h
    simp [h]
  · simpa using List.dropLast_append_getLast? a h

theorem slotCards_perm {l₁ l₂ : List (Option Card)} (h : l₁.Perm l₂) :
    slotCards l₁ = slotCards l₂ :=
  Multiset.coe_eq_coe.2 (h.filterMap id)

theorem slotCards_append (l₁ l₂ : List (Option Card)) :
    slotCards (l₁ ++ l₂) = slotCards l₁ + slotCards l₂ := by
  simp [slotCards, List.filterMap_append, Multiset.coe_add]

theorem slotCards_shuffle (f : Nat → Nat) (l : List (Option Card)) :
    slotCards (shuffleWith f l) = slotCards l :=
  slotCards_perm (shuffleWith_perm f l)

theorem slotCards_singleton (c : Option Card) :
    slotCards [c] = ↑c.toList := by
  cases c <;> rfl

/-- Popping the deck splits its card content into the remaining part and the
(possibly absent) drawn card. -/
theorem slotCards_pop (l : List (Option Card)) :
    slotCards l = slotCards l.dropLast + ↑l.getLast?.join.toList := by
  conv_lhs => rw [← dropLast_append_getLastToList l]
  rw [slotCards_append]
  congr 1
  rcases h : l.getLast? with _ | e
  · simp [slotCards]
  · cases e <;> simp [slotCards]

theorem receiveCard_eq (hand : List Card) (c : Option Card) :
    receiveCard hand c = hand ++ c.toList := by
  cases c <;> simp [receiveCard]

/-- Removing the slot at `i` splits a hand's card content. -/
theorem coe_eraseIdx (l : List α) : ∀ i : Nat,
    (l : Multiset α) = ↑(l[i]?.toList) + ↑(l.eraseIdx i) := by
  induction l with
  | nil => intro i; simp
  | cons x t ih =>
    intro i
    cases i with
    | zero => simp [Multiset.coe_add]
    | succ i =>
      have := ih i
      simp only [List.getElem?_cons_succ, List.eraseIdx_cons_succ]
      calc (↑(x :: t) : Multiset α) = x ::ₘ ↑t := by simp
        _ = x ::ₘ (↑(t[i]?.toList) + ↑(t.eraseIdx i)) := by rw [← this]
        _ = ↑(t[i]?.toList) + (x ::ₘ ↑(t.eraseIdx i)) := by
              rw [Multiset.add_cons]
        _ = ↑(t[i]?.toList) + ↑(x :: t.eraseIdx i) := by simp

theorem sumHands_update (h : Fin 4 → List Card) (p : Fin 4) (l : List Card) :
    sumHands (Function.update h p l) + ↑(h p) = sumHands h + ↑l := by
  unfold sumHands
  have e : ∀ j, (↑(Function.update h p l j) : Multiset Card)
      = Function.update (fun i => (↑(h i) : Multiset Card)) p (↑l) j :=
    fun j => Function.apply_update (fun (_ : Fin 4) (hand : List Card) =>
      (hand : Multiset Card)) h p l j
  rw [Finset.sum_congr rfl (fun j _ => e j),
      Finset.sum_update_of_mem (Finset.mem_univ p),
      Finset.sdiff_singleton_eq_erase,
      ← Finset.add_sum_erase _ _ (Finset.mem_univ p)]
  abel

/-! ### Conservation of cards by every operation -/

theorem recycleDeck_conserve (f : Nat → Nat) (deck discard : List (Option Card)) :
    slotCards (recycleDeck f deck discard).1 + slotCards (recycleDeck f deck discard).2
      = slotCards deck + slotCards discard := by
  unfold recycleDeck
  split
  · rfl
  · rw [slotCards_shuffle, slotCards_append]
    have h : slotCards discard.dropLast + slotCards discard.getLast?.toList
        = slotCards discard := by
      rw [← slotCards_append, dropLast_append_getLastToList]
    rw [add_assoc, h]

theorem pop_receive_conserve (deck : List (Option Card)) (hand : List Card) :
    slotCards deck.dropLast + ↑(receiveCard hand deck.getLast?.join)
      = slotCards deck + ↑hand := by
  rw [receiveCard_eq, slotCards_pop deck, ← Multiset.coe_add]
  abel

theorem forceDrawAux_conserve (σ : Nat → Nat → Nat) :
    ∀ (amt k : Nat) (deck discard : List (Option Card)) (hand : List Card),
    slotCards (forceDrawAux σ k amt deck discard hand).1
      + slotCards (forceDrawAux σ k amt deck discard hand).2.1
      + ↑(forceDrawAux σ k amt deck discard hand).2.2
      = slotCards deck + slotCards discard + ↑hand := by
  intro amt
  induction amt with
  | zero => intros; rfl
  | succ n ih =>
    intro k deck discard hand
    rw [forceDrawAux]
    by_cases hd : deck.length = 0
    · simp only [hd, if_pos, ih]
      have hr := recycleDeck_conserve (σ k) deck discard
      set r := recycleDeck (σ k) deck discard with hrdef
      calc slotCards r.1.dropLast + slotCards r.2 + ↑(receiveCard hand r.1.getLast?.join)
          = (slotCards r.1.dropLast + ↑(receiveCard hand r.1.getLast?.join))
            + slotCards r.2 := by abel
        _ = (slotCards r.1 + ↑hand) + slotCards r.2 := by rw [pop_receive_conserve]
        _ = (slotCards r.1 + slotCards r.2) + ↑hand := by abel
        _ = slotCards deck + slotCards discard + ↑hand := by rw [hr]
    · simp only [hd, if_neg, ih]
      calc slotCards deck.dropLast + slotCards discard
              + ↑(receiveCard hand deck.getLast?.join)
          = (slotCards deck.dropLast + ↑(receiveCard hand deck.getLast?.join))
            + slotCards discard := by abel
        _ = (slotCards deck + ↑hand) + slotCards discard := by rw [pop_receive_conserve]
        _ = slotCards deck + slotCards discard + ↑hand := by abel

theorem stateCards_nextTurn (g : GameState) : stateCards (nextTurn g) = stateCards g := by
  unfold nextTurn handleWin advancePointer
  split
  · rfl
  · split <;> rfl

theorem stateCards_advancePointer (g : GameState) :
    stateCards (advancePointer g) = stateCards g := rfl

theorem stateCards_dirFlip (g : GameState) (d : Int) :
    stateCards { g with direction := d } = stateCards g := rfl

theorem forceDraw_conserve (σ : Nat → Nat → Nat) (amt : Nat) (g : GameState) :
    stateCards (forceDraw σ amt g) = stateCards g := by
  unfold forceDraw stateCards
  simp only []
  set v := g.currentPlayerIndex with hv
  set r := forceDrawAux σ 0 amt g.deck g.discardPile (g.hands v) with hrdef
  have hr := forceDrawAux_conserve σ amt 0 g.deck g.discardPile (g.hands v)
  rw [← hrdef] at hr
  apply (add_left_inj ((g.hands v : Multiset Card))).mp
  calc slotCards r.1 + slotCards r.2.1 + sumHands (Function.update g.hands v r.2.2)
          + ↑(g.hands v)
      = slotCards r.1 + slotCards r.2.1
          + (sumHands (Function.update g.hands v r.2.2) + ↑(g.hands v)) := by abel
    _ = slotCards r.1 + slotCards r.2.1 + (sumHands g.hands + ↑r.2.2) := by
          rw [sumHands_update]
    _ = (slotCards r.1 + slotCards r.2.1 + ↑r.2.2) + sumHands g.hands := by abel
    _ = (slotCards g.deck + slotCards g.discardPile + ↑(g.hands v)) + sumHands g.hands := by
          rw [hr]
    _ = slotCards g.deck + slotCards g.discardPile + sumHands g.hands + ↑(g.hands v) := by
          abel

theorem recycle_state_conserve (σ : Nat → Nat) (g : GameState) :
    stateCards { g with deck := (recycleDeck σ g.deck g.discardPile).1,
                        discardPile := (recycleDeck σ g.deck g.discardPile).2 }
      = stateCards g := by
  unfold stateCards
  simp only []
  rw [recycleDeck_conserve]

theorem pop_receive_state_conserve (g : GameState) (p : Fin 4) :
    stateCards { g with deck := g.deck.dropLast,
                        hands := Function.update g.hands p
                          (receiveCard (g.hands p) g.deck.getLast?.join) }
      = stateCards g := by
  unfold stateCards
  simp only []
  apply (add_left_inj ((g.hands p : Multiset Card))).mp
  calc slotCards g.deck.dropLast + slotCards g.discardPile
          + sumHands (Function.update g.hands p
              (receiveCard (g.hands p) g.deck.getLast?.join)) + ↑(g.hands p)
      = slotCards g.deck.dropLast + slotCards g.discardPile
          + (sumHands (Function.update g.hands p
              (receiveCard (g.hands p) g.deck.getLast?.join)) + ↑(g.hands p)) := by abel
    _ = slotCards g.deck.dropLast + slotCards g.discardPile
          + (sumHands g.hands + ↑(receiveCard (g.hands p) g.deck.getLast?.join)) := by
          rw [sumHands_update]
    _ = (slotCards g.deck.dropLast + ↑(receiveCard (g.hands p) g.deck.getLast?.join))
          + slotCards g.discardPile + sumHands g.hands := by abel
    _ = (slotCards g.deck + ↑(g.hands p)) + slotCards g.discardPile + sumHands g.hands := by
          rw [pop_receive_conserve]
    _ = slotCards g.deck + slotCards g.discardPile + sumHands g.hands + ↑(g.hands p) := by
          abel

theorem executeDraw_conserve (σ : Nat → Nat) (g : GameState) (p : Fin 4) :
    stateCards (executeDraw σ g p) = stateCards g := by
  unfold executeDraw
  by_cases h : g.deck.length = 0
  · simp only [h, if_pos]
    rw [stateCards_nextTurn]
    exact (pop_receive_state_conserve
      { g with deck := (recycleDeck σ g.deck g.discardPile).1,
               discardPile := (recycleDeck σ g.deck g.discardPile).2 } p).trans
      (recycle_state_conserve σ g)
  · simp only [h, if_neg]
    rw [stateCards_nextTurn]
    exact pop_receive_state_conserve g p

theorem handleDrawCard_conserve (σ : Nat → Nat) (g : GameState) :
    stateCards (handleDrawCard σ g) = stateCards g := by
  unfold handleDrawCard
  split
  · rfl
  · exact executeDraw_conserve σ g g.currentPlayerIndex

theorem removeOneRandomCard_conserve (r : Nat) (hand : List Card) :
    (hand : Multiset Card)
      = ↑((removeOneRandomCard r hand).1.toList) + ↑(removeOneRandomCard r hand).2 := by
  unfold removeOneRandomCard playCard
  split
  · simp
  · exact coe_eraseIdx hand _

theorem sumHands_passStep (dir : Int) (passed : Fin 4 → Option Card)
    (hs : Fin 4 → List Card) (i : Fin 4) :
    sumHands (passStep dir passed hs i) = sumHands hs + ↑(passed i).toList := by
  unfold passStep
  rcases hpi : passed i with _ | c
  · simp
  · simp only [Option.toList]
    set nxt := wrapIdx ((i : Nat) + dir) with hnxt
    apply (add_left_inj ((hs nxt : Multiset Card))).mp
    calc sumHands (Function.update hs nxt (hs nxt ++ [c])) + ↑(hs nxt)
        = sumHands hs + ↑(hs nxt ++ [c]) := sumHands_update hs nxt (hs nxt ++ [c])
      _ = sumHands hs + ↑[c] + ↑(hs nxt) := by rw [← Multiset.coe_add]; abel

theorem sumHands_passFold (dir : Int) (passed : Fin 4 → Option Card)
    (hs : Fin 4 → List Card) :
    sumHands ((List.finRange 4).foldl (passStep dir passed) hs)
      = sumHands hs + (↑(passed 0).toList + ↑(passed 1).toList
          + ↑(passed 2).toList + ↑(passed 3).toList) := by
  have hfr : List.finRange 4 = [0, 1, 2, 3] := by decide
  rw [hfr]
  simp only [List.foldl_cons, List.foldl_nil]
  rw [sumHands_passStep, sumHands_passStep, sumHands_passStep, sumHands_passStep]
  abel

theorem sumHands_passRule (π : Fin 4 → Nat) (g : GameState) :
    sumHands ((handlePassCardRule π g).hands) = sumHands g.hands := by
  show sumHands ((List.finRange 4).foldl
      (passStep g.direction (fun s => (removeOneRandomCard (π s) (g.hands s)).1))
      (fun s => (removeOneRandomCard (π s) (g.hands s)).2)) = sumHands g.hands
  rw [sumHands_passFold]
  have hsplit : ∀ s : Fin 4, (↑(g.hands s) : Multiset Card)
      = ↑((removeOneRandomCard (π s) (g.hands s)).1.toList)
        + ↑(removeOneRandomCard (π s) (g.hands s)).2 :=
    fun s => removeOneRandomCard_conserve (π s) (g.hands s)
  calc sumHands (fun s => (removeOneRandomCard (π s) (g.hands s)).2)
        + (↑((removeOneRandomCard (π 0) (g.hands 0)).1.toList)
          + ↑((removeOneRandomCard (π 1) (g.hands 1)).1.toList)
          + ↑((removeOneRandomCard (π 2) (g.hands 2)).1.toList)
          + ↑((removeOneRandomCard (π 3) (g.hands 3)).1.toList))
      = ↑(g.hands 0) + ↑(g.hands 1) + ↑(g.hands 2) + ↑(g.hands 3) := by
        unfold sumHands
        rw [Fin.sum_univ_four]
        rw [hsplit 0, hsplit 1, hsplit 2, hsplit 3]
        abel
    _ = sumHands g.hands := by unfold sumHands; rw [Fin.sum_univ_four]

theorem handlePassCardRule_conserve (π : Fin 4 → Nat) (g : GameState) :
    stateCards (handlePassCardRule π g) = stateCards g := by
  unfold stateCards
  have h1 : (handlePassCardRule π g).deck = g.deck := rfl
  have h2 : (handlePassCardRule π g).discardPile = g.discardPile := rfl
  rw [h1, h2, sumHands_passRule]

/-- Splicing a card out of a hand and pushing the same slot value onto the
discard pile conserves cards (also when the slot is `undefined`). -/
theorem play_push_conserve (g : GameState) (p : Fin 4) (i : Nat) :
    stateCards { g with hands := Function.update g.hands p ((g.hands p).eraseIdx i),
                        discardPile := g.discardPile ++ [(g.hands p)[i]?] }
      = stateCards g := by
  unfold stateCards
  simp only []
  apply (add_left_inj ((g.hands p : Multiset Card))).mp
  have hsplit := coe_eraseIdx (g.hands p) i
  calc slotCards g.deck + slotCards (g.discardPile ++ [(g.hands p)[i]?])
          + sumHands (Function.update g.hands p ((g.hands p).eraseIdx i)) + ↑(g.hands p)
      = slotCards g.deck + (slotCards g.discardPile + ↑((g.hands p)[i]?.toList))
          + (sumHands (Function.update g.hands p ((g.hands p).eraseIdx i))
              + ↑(g.hands p)) := by
        rw [slotCards_append, slotCards_singleton]; abel
    _ = slotCards g.deck + (slotCards g.discardPile + ↑((g.hands p)[i]?.toList))
          + (sumHands g.hands + ↑((g.hands p).eraseIdx i)) := by rw [sumHands_update]
    _ = slotCards g.deck + slotCards g.discardPile + sumHands g.hands
          + (↑((g.hands p)[i]?.toList) + ↑((g.hands p).eraseIdx i)) := by abel
    _ = slotCards g.deck + slotCards g.discardPile + sumHands g.hands + ↑(g.hands p) := by
        rw [← hsplit]

theorem effectDispatch_conserve (σ : Nat → Nat → Nat) (π : Fin 4 → Nat)
    (c : Card) (g1 : GameState) :
    stateCards (effectDispatch σ π c g1).1 = stateCards g1 := by
  unfold effectDispatch
  rcases c with ⟨s, v⟩
  cases v with
  | v2 => rw [stateCards_nextTurn, forceDraw_conserve, stateCards_advancePointer]
  | vX => rw [stateCards_nextTurn, forceDraw_conserve, stateCards_advancePointer]
  | v8 => rw [stateCards_nextTurn, stateCards_advancePointer]
  | vA => rw [stateCards_nextTurn, stateCards_dirFlip]
  | v10 => rw [stateCards_nextTurn, handlePassCardRule_conserve]
  | vK => rfl
  | _ => rw [stateCards_nextTurn]

theorem playValid_conserve (σ : Nat → Nat → Nat) (π : Fin 4 → Nat)
    (g : GameState) (p : Fin 4) (i : Nat) :
    stateCards (playValid σ π g p i).1 = stateCards g := by
  unfold playValid
  simp only []
  have hc1 := play_push_conserve g p i
  split
  · exact hc1
  · split
    · exact hc1
    · exact (effectDispatch_conserve _ _ _ _).trans hc1

theorem handleCardPlay_conserve (σ : Nat → Nat → Nat) (π : Fin 4 → Nat)
    (g : GameState) (p : Fin 4) (i : Nat) :
    stateCards (handleCardPlay σ π g p i).1 = stateCards g := by
  unfold handleCardPlay
  split
  · rfl
  · split
    · rfl
    · rfl
    · exact playValid_conserve σ π g p i

theorem playAiTurn_conserve (σ : Nat → Nat → Nat) (π : Fin 4 → Nat) (g : GameState) :
    stateCards (playAiTurn σ π g).1 = stateCards g := by
  unfold playAiTurn
  split
  · rfl
  simp only []
  split
  · exact executeDraw_conserve _ g _
  split
  · rfl
  · rfl
  split
  · exact handleCardPlay_conserve σ π g _ _
  · exact executeDraw_conserve _ g _

theorem dealOne_conserve (dh : List (Option Card) × (Fin 4 → List Card)) (p : Fin 4) :
    slotCards (dealOne dh p).1 + sumHands (dealOne dh p).2
      = slotCards dh.1 + sumHands dh.2 := by
  unfold dealOne
  simp only []
  apply (add_left_inj ((dh.2 p : Multiset Card))).mp
  calc slotCards dh.1.dropLast
          + sumHands (Function.update dh.2 p (receiveCard (dh.2 p) dh.1.getLast?.join))
          + ↑(dh.2 p)
      = slotCards dh.1.dropLast
          + (sumHands (Function.update dh.2 p (receiveCard (dh.2 p) dh.1.getLast?.join))
              + ↑(dh.2 p)) := by abel
    _ = slotCards dh.1.dropLast
          + (sumHands dh.2 + ↑(receiveCard (dh.2 p) dh.1.getLast?.join)) := by
        rw [sumHands_update]
    _ = (slotCards dh.1.dropLast + ↑(receiveCard (dh.2 p) dh.1.getLast?.join))
          + sumHands dh.2 := by abel
    _ = (slotCards dh.1 + ↑(dh.2 p)) + sumHands dh.2 := by rw [pop_receive_conserve]
    _ = slotCards dh.1 + sumHands dh.2 + ↑(dh.2 p) := by abel

theorem dealRound_conserve (dh : List (Option Card) × (Fin 4 → List Card)) :
    slotCards (dealRound dh).1 + sumHands (dealRound dh).2
      = slotCards dh.1 + sumHands dh.2 := by
  unfold dealRound
  have hfr : List.finRange 4 = [0, 1, 2, 3] := by decide
  rw [hfr]
  simp only [List.foldl_cons, List.foldl_nil]
  rw [dealOne_conserve, dealOne_conserve, dealOne_conserve, dealOne_conserve]

theorem dealFold_conserve (l : List Nat) :
    ∀ dh : List (Option Card) × (Fin 4 → List Card),
    slotCards (l.foldl (fun dh _ => dealRound dh) dh).1
        + sumHands (l.foldl (fun dh _ => dealRound dh) dh).2
      = slotCards dh.1 + sumHands dh.2 := by
  induction l with
  | nil => intro dh; rfl
  | cons x t ih =>
    intro dh
    rw [List.foldl_cons, ih, dealRound_conserve]

theorem init_cards (f : Nat → Nat) (r : Nat) (g : GameState) :
    stateCards (Game.init f r g) = slotCards g.deck := by
  unfold Game.init stateCards
  simp only []
  set dh := (List.range 7).foldl (fun dh _ => dealRound dh)
    (shuffleWith f g.deck, fun _ => ([] : List Card)) with hdh
  have hfold := dealFold_conserve (List.range 7)
    (shuffleWith f g.deck, fun _ => ([] : List Card))
  rw [← hdh] at hfold
  have hempty : sumHands (fun _ => ([] : List Card)) = 0 := by
    unfold sumHands
    rw [Fin.sum_univ_four]
    rfl
  rw [hempty, add_zero] at hfold
  have hjoin : (dh.1.getLast?.join.toList : Multiset Card)
      = slotCards [dh.1.getLast?.join] := (slotCards_singleton _).symm
  calc slotCards dh.1.dropLast + slotCards [dh.1.getLast?.join] + sumHands dh.2
      = (slotCards dh.1.dropLast + ↑dh.1.getLast?.join.toList) + sumHands dh.2 := by
        rw [hjoin]
    _ = slotCards dh.1 + sumHands dh.2 := by rw [← slotCards_pop]
    _ = slotCards (shuffleWith f g.deck) := hfold
    _ = slotCards g.deck := slotCards_shuffle f g.deck

theorem slotCards_map_some (l : List Card) : slotCards (l.map some) = ↑l := by
  unfold slotCards
  congr 1
  induction l with
  | nil => rfl
  | cons x t ih => simp [ih]

theorem mkGame_cards (f : Nat → Nat) (r : Nat) : stateCards (mkGame f r) = cardUniverse := by
  unfold mkGame cardUniverse
  rw [init_cards]
  exact slotCards_map_some fullDeck

theorem step_conserve {g g' : GameState} (h : Step g g') : stateCards g' = stateCards g := by
  cases h with
  | play σ π g p i => exact handleCardPlay_conserve σ π g p i
  | drawClick σ g => exact handleDrawCard_conserve σ g
  | draw σ g p => exact executeDraw_conserve σ g p
  | ai σ π g => exact playAiTurn_conserve σ π g
  | force σ amt g => exact forceDraw_conserve σ amt g
  | pass π g => exact handlePassCardRule_conserve π g
  | recycle σ g => exact recycle_state_conserve σ g

/-! ### The claims -/

/-- C1. Universe conservation: for every state reachable from a freshly
initialised game by the public operations (playing a card, drawing, the
2/Joker force-draw, the 10 pass-around, and deck recycling), the multiset
union of the deck, the discard pile, and all four players' hands equals the
fixed 54-card universe (52 distinct suit-rank cards plus 2 Jokers) — no
card is created, destroyed, or duplicated. -/
theorem universe_conservation (g : GameState) (h : Reachable g) :
    stateCards g = cardUniverse := by
  induction h with
  | init f r => exact mkGame_cards f r
  | step _ hs ih => exact (step_conserve hs).trans ih

theorem universe_conservation_witness :
    stateCards (mkGame (fun _ => 0) 0) = cardUniverse :=
  universe_conservation _ (Reachable.init (fun _ => 0) 0)

/-- C2. `isValidMove` is true exactly when the top's rank is Joker or Jack,
or the candidate's rank is Joker or Jack, or the ranks match, or the suits
match; in particular a Joker/Jack top admits every candidate and a
Joker/Jack candidate is valid against every top. -/
theorem isValidMove_iff (top card : Card) :
    isValidMove top card = true ↔
      (top.value = .vX ∨ top.value = .vJ
        ∨ card.value = .vX ∨ card.value = .vJ
        ∨ card.value = top.value ∨ card.suit = top.suit) := by
  unfold isValidMove
  split_ifs <;> simp_all <;> tauto

/-- C3. If a play removes the acting seat's last card, the game enters the
game-over state immediately after the card is pushed to the discard pile
and before the special-effect dispatch: the resulting state differs from
the original only in that seat's now-empty hand, the grown discard pile,
and `gameOver = true` — no pointer advance, no forced draw, no direction
flip, and no pass-around happens, whatever the winning card's rank. -/
theorem winning_play_skips_effect (σ : Nat → Nat → Nat) (π : Fin 4 → Nat)
    (g : GameState) (p : Fin 4) (c : Card)
    (hgo : g.gameOver = false)
    (hhand : g.hands p = [c])
    (hvalid : isValidMoveG g (some c) = some true) :
    handleCardPlay σ π g p 0
      = ({ g with hands := Function.update g.hands p [],
                  discardPile := g.discardPile ++ [some c],
                  gameOver := true }, .returnedTrue) := by
  unfold handleCardPlay
  have hc : (g.hands p)[0]? = some c := by rw [hhand]; rfl
  rw [if_neg (by simp [hgo]), hc, hvalid]
  unfold playValid
  rw [hc]
  simp only [hhand, List.eraseIdx_cons_zero, Function.update_same, List.length_nil]
  rw [if_pos trivial]
  rfl

theorem winning_play_skips_effect_witness :
    handleCardPlay σ0 π0 gC3 0 0
      = ({ gC3 with hands := Function.update gC3.hands 0 [],
                    discardPile := gC3.discardPile ++ [some (Card.mk .H .v2)],
                    gameOver := true }, .returnedTrue) :=
  winning_play_skips_effect σ0 π0 gC3 0 (Card.mk .H .v2) rfl rfl (by decide)

/-- C4 counterexample. `handleCardPlay` performs no current-player check:
in `gC4` it is seat 1's turn, yet seat 0's play of a matching card
succeeds and mutates the state (hand shrinks, discard pile grows), instead
of failing as a no-op. -/
theorem play_without_turn_not_noop :
    gC4.currentPlayerIndex ≠ 0
      ∧ (handleCardPlay σ0 π0 gC4 0 0).2 = .returnedTrue
      ∧ (handleCardPlay σ0 π0 gC4 0 0).1.hands 0 = [Card.mk .S .v9]
      ∧ (handleCardPlay σ0 π0 gC4 0 0).1.discardPile
          = [some (Card.mk .H .v3), some (Card.mk .H .v5)] := by
  refine ⟨by decide, ?_, ?_, ?_⟩ <;> decide

/-- C4 amended. When `isValidMove` rejects the candidate slot against the
discard top (which entails the slot is defined, hence the index is in
range, and the top is not a Jack/Joker) and the game is not over, the play
fails as a no-op returning the invalid-move report `false`, leaving the
whole state unchanged — but this holds for every seat alike: the engine
never compares the acting seat with the current player, and an
out-of-range index is not rejected (it either throws or, under a
Jack/Joker top, pushes an undefined slot). -/
theorem invalid_move_is_noop (σ : Nat → Nat → Nat) (π : Fin 4 → Nat)
    (g : GameState) (p : Fin 4) (i : Nat)
    (hgo : g.gameOver = false)
    (hvalid : isValidMoveG g ((g.hands p)[i]?) = some false) :
    handleCardPlay σ π g p i = (g, .returnedFalse) := by
  unfold handleCardPlay
  rw [if_neg (by simp [hgo]), hvalid]

theorem invalid_move_is_noop_witness :
    handleCardPlay σ0 π0 gC4b 2 0 = (gC4b, .returnedFalse) :=
  invalid_move_is_noop σ0 π0 gC4b 2 0 rfl (by decide)

theorem getLast_join_eq_some {l : List (Option Card)} (hne : l ≠ []) (hs : AllSome l) :
    ∃ c, l.getLast?.join = some c := by
  rcases hl : l.getLast? with _ | e
  · rw [List.getLast?_eq_none_iff] at hl
    exact absurd hl hne
  · have he : e ∈ l := List.mem_of_mem_getLast? (by simp [hl])
    have hse := hs e he
    rcases e with _ | c
    · simp at hse
    · exact ⟨c, rfl⟩

theorem nextTurn_advance (g : GameState) (hgo : g.gameOver = false)
    (hh : (g.hands g.currentPlayerIndex).length ≠ 0) :
    nextTurn g = advancePointer g := by
  unfold nextTurn
  rw [if_neg (by simp [hgo]), if_neg hh]

theorem nextTurn_hands (g : GameState) : (nextTurn g).hands = g.hands := by
  unfold nextTurn handleWin advancePointer
  split
  · rfl
  · split <;> rfl

theorem nextTurn_deck (g : GameState) : (nextTurn g).deck = g.deck := by
  unfold nextTurn handleWin advancePointer
  split
  · rfl
  · split <;> rfl

theorem nextTurn_discard (g : GameState) : (nextTurn g).discardPile = g.discardPile := by
  unfold nextTurn handleWin advancePointer
  split
  · rfl
  · split <;> rfl

/-- C7 evidence. The freeze after `gameOver` is violated by the deck click:
in `gC7` the game is over (seat 0 has won, pointer still on seat 0), yet
`handleDrawCard` draws the last deck card into seat 0's hand — neither
`handleDrawCard` nor `executeDraw` checks `gameOver`. -/
theorem frozen_state_violated_by_draw :
    gC7.gameOver = true
      ∧ gC7.hands 0 = []
      ∧ (handleDrawCard f0 gC7).hands 0 = [Card.mk .R .v4]
      ∧ (handleDrawCard f0 gC7).deck = [] := by
  refine ⟨rfl, rfl, ?_, ?_⟩ <;> decide

/-- C8 counterexample. With an empty deck and a single-card discard pile,
`executeDraw` signals nothing at all: it completes as a silent success —
no card moves, yet the turn advances — instead of surfacing any
deck-exhausted error (the source has no error channel whatsoever). -/
theorem deck_exhausted_never_signaled :
    gC8.deck = []
      ∧ gC8.discardPile.length ≤ 1
      ∧ (executeDraw f0 gC8 1).hands 1 = gC8.hands 1
      ∧ (executeDraw f0 gC8 1).deck = []
      ∧ (executeDraw f0 gC8 1).discardPile = gC8.discardPile
      ∧ (executeDraw f0 gC8 1).currentPlayerIndex = 2
      ∧ (executeDraw f0 gC8 1).gameOver = false := by
  refine ⟨rfl, by decide, ?_, ?_, ?_, ?_, ?_⟩ <;> decide

theorem exhaustedDraw_eq_advance (σ : Nat → Nat) (g : GameState) (p : Fin 4)
    (hdeck : g.deck = [])
    (hdp : g.discardPile.length ≤ 1)
    (hgo : g.gameOver = false)
    (hhand : (g.hands g.currentPlayerIndex).length ≠ 0) :
    executeDraw σ g p = advancePointer g := by
  have hr : recycleDeck σ g.deck g.discardPile = (g.deck, g.discardPile) := by
    unfold recycleDeck
    rw [if_pos hdp]
  have h1 : g.deck.dropLast = g.deck := by rw [hdeck]; rfl
  have h2 : g.deck.getLast?.join = none := by rw [hdeck]; rfl
  unfold executeDraw
  rw [if_pos (by rw [hdeck]; rfl), hr]
  simp only []
  rw [h1, h2, receiveCard_eq]
  rw [show (none : Option Card).toList = [] from rfl, List.append_nil,
      Function.update_eq_self]
  show nextTurn g = advancePointer g
  exact nextTurn_advance g hgo hhand

/-- C10. When the current seat draws while the deck is empty and the
discard pile holds at most one card, `executeDraw` still completes without
raising: the recycle is a no-op, the popped `undefined` is discarded by
`receiveCard`'s guard so every hand (and the deck and pile) is unchanged,
and the turn nevertheless advances one step to the next seat. -/
theorem exhausted_draw_is_silent_noop (σ : Nat → Nat) (g : GameState)
    (hdeck : g.deck = [])
    (hdp : g.discardPile.length ≤ 1)
    (hgo : g.gameOver = false)
    (hhand : (g.hands g.currentPlayerIndex).length ≠ 0) :
    executeDraw σ g g.currentPlayerIndex = advancePointer g :=
  exhaustedDraw_eq_advance σ g g.currentPlayerIndex hdeck hdp hgo hhand

theorem exhausted_draw_is_silent_noop_witness :
    executeDraw f0 gC8 gC8.currentPlayerIndex = advancePointer gC8 :=
  exhausted_draw_is_silent_noop f0 gC8 rfl (by decide) rfl (by decide)

theorem recycleDeck_full_spec (f : Nat → Nat) (deck discard : List (Option Card))
    (h2 : 2 ≤ discard.length) :
    (recycleDeck f deck discard).1.length = deck.length + discard.length - 1
      ∧ (recycleDeck f deck discard).2 = discard.getLast?.toList
      ∧ (AllSome deck → AllSome discard → AllSome (recycleDeck f deck discard).1) := by
  unfold recycleDeck
  rw [if_neg (by omega)]
  refine ⟨?_, rfl, ?_⟩
  · rw [shuffleWith_length, List.length_append, List.length_dropLast]
    omega
  · intro hd hdp x hx
    have hx' : x ∈ deck ++ discard.dropLast := ((shuffleWith_perm f _).mem_iff).1 hx
    rcases List.mem_append.1 hx' with h | h
    · exact hd x h
    · exact hdp x (List.dropLast_subset _ h)

/-- C8 amended. With an empty deck, a draw with a discard pile of at most
one card completes silently with no card moved and the turn advanced (no
error is ever signalled); with a discard pile of at least two cards, the
draw first recycles — keeping the top card as the sole discard and
shuffling the rest into the deck — and then draws exactly one card into
the drawing seat's hand, every other hand unchanged. -/
theorem draw_recycle_spec (σ : Nat → Nat) (g : GameState) (p : Fin 4)
    (hdeck : g.deck = [])
    (hgo : g.gameOver = false)
    (hhand : (g.hands g.currentPlayerIndex).length ≠ 0) :
    (g.discardPile.length ≤ 1 → executeDraw σ g p = advancePointer g)
      ∧ (2 ≤ g.discardPile.length → AllSome g.discardPile →
          (executeDraw σ g p).discardPile = g.discardPile.getLast?.toList
            ∧ (executeDraw σ g p).deck.length = g.discardPile.length - 2
            ∧ ((executeDraw σ g p).hands p).length = (g.hands p).length + 1
            ∧ ∀ q : Fin 4, q ≠ p → (executeDraw σ g p).hands q = g.hands q) := by
  constructor
  · intro hdp
    exact exhaustedDraw_eq_advance σ g p hdeck hdp hgo hhand
  · intro h2 hsome
    obtain ⟨hlen, hsnd, hall⟩ := recycleDeck_full_spec σ g.deck g.discardPile h2
    have hdl : g.deck.length = 0 := by rw [hdeck]; rfl
    set r := recycleDeck σ g.deck g.discardPile with hrdef
    have hr1len : r.1.length = g.discardPile.length - 1 := by omega
    have hr1ne : r.1 ≠ [] := by
      intro hnil
      rw [hnil] at hr1len
      simp at hr1len
      omega
    have hr1some : AllSome r.1 := hall (by rw [hdeck]; intro x hx; cases hx) hsome
    obtain ⟨c, hc⟩ := getLast_join_eq_some hr1ne hr1some
    have hbody : executeDraw σ g p
        = nextTurn { g with deck := r.1.dropLast,
                            discardPile := r.2,
                            hands := Function.update g.hands p
                              (receiveCard (g.hands p) r.1.getLast?.join) } := by
      unfold executeDraw
      rw [if_pos hdl, ← hrdef]
    rw [hbody, nextTurn_discard, nextTurn_deck, nextTurn_hands]
    refine ⟨hsnd, ?_, ?_, ?_⟩
    · simp only [List.length_dropLast]
      omega
    · show (Function.update g.hands p
          (receiveCard (g.hands p) r.1.getLast?.join) p).length
        = (g.hands p).length + 1
      rw [Function.update_same, hc, receiveCard_eq]
      simp
    · intro q hq
      exact Function.update_noteq hq _ _

theorem allSome_append {l₁ l₂ : List (Option Card)} (h₁ : AllSome l₁) (h₂ : AllSome l₂) :
    AllSome (l₁ ++ l₂) := by
  intro x hx
  rcases List.mem_append.1 hx with h | h
  · exact h₁ x h
  · exact h₂ x h

theorem allSome_dropLast {l : List (Option Card)} (h : AllSome l) : AllSome l.dropLast :=
  fun x hx => h x (List.dropLast_subset l hx)

theorem allSome_getLastToList {l : List (Option Card)} (hs : AllSome l) :
    AllSome l.getLast?.toList := by
  rcases hl : l.getLast? with _ | e
  · intro x hx
    cases hx
  · intro x hx
    cases hx with
    | head => exact hs e (List.mem_of_mem_getLast? (by simp [hl]))
    | tail _ h => cases h

theorem getLastToList_ne_nil {l : List (Option Card)} (hne : l ≠ []) :
    l.getLast?.toList ≠ [] := by
  rcases hl : l.getLast? with _ | e
  · rw [List.getLast?_eq_none_iff] at hl
    exact absurd hl hne
  · simp

theorem getLastToList_length {l : List (Option Card)} (hne : l ≠ []) :
    l.getLast?.toList.length = 1 := by
  rcases hl : l.getLast? with _ | e
  · rw [List.getLast?_eq_none_iff] at hl
    exact absurd hl hne
  · simp

/-- When enough real cards sit in the deck plus the recyclable discard
cards, every iteration of the force-draw loop really draws one card. -/
theorem forceDrawAux_growth (σ : Nat → Nat → Nat) :
    ∀ (amt k : Nat) (deck discard : List (Option Card)) (hand : List Card),
    AllSome deck → AllSome discard → discard ≠ [] →
    amt + 1 ≤ deck.length + discard.length →
    (forceDrawAux σ k amt deck discard hand).2.2.length = hand.length + amt := by
  intro amt
  induction amt with
  | zero => intros; rfl
  | succ n ih =>
    intro k deck discard hand hdk hdc hne hpool
    rw [forceDrawAux]
    by_cases h0 : deck.length = 0
    · have hdnil : deck = [] := List.length_eq_zero.1 h0
      have h2 : 2 ≤ discard.length := by
        rw [hdnil] at hpool
        simp at hpool
        omega
      obtain ⟨hlen, hsnd, hall⟩ := recycleDeck_full_spec (σ k) deck discard h2
      simp only []
      rw [if_pos h0]
      simp only []
      set r := recycleDeck (σ k) deck discard with hrdef
      have hr1len : r.1.length = discard.length - 1 := by omega
      have hr1ne : r.1 ≠ [] := by
        intro hnil
        rw [hnil] at hr1len
        simp at hr1len
        omega
      have hr1some : AllSome r.1 := hall hdk hdc
      obtain ⟨c, hc⟩ := getLast_join_eq_some hr1ne hr1some
      rw [hc, receiveCard_eq]
      have hr2some : AllSome r.2 := by
        rw [hsnd]
        exact allSome_getLastToList hdc
      have hr2ne : r.2 ≠ [] := by
        rw [hsnd]
        exact getLastToList_ne_nil hne
      have hr2len : r.2.length = 1 := by
        rw [hsnd]
        exact getLastToList_length hne
      rw [ih (k+1) r.1.dropLast r.2 _ (allSome_dropLast hr1some) hr2some hr2ne
        (by rw [List.length_dropLast]; omega)]
      simp only [Option.toList, List.length_append, List.length_cons, List.length_nil]
      omega
    · simp only []
      rw [if_neg h0]
      simp only []
      have hne' : deck ≠ [] := by
        intro hnil
        rw [hnil] at h0
        exact h0 rfl
      obtain ⟨c, hc⟩ := getLast_join_eq_some hne' hdk
      rw [hc, receiveCard_eq]
      rw [ih k deck.dropLast discard _ (allSome_dropLast hdk) hdc hne
        (by rw [List.length_dropLast]; omega)]
      simp only [Option.toList, List.length_append, List.length_cons, List.length_nil]
      omega

theorem wrapIdx_add_ne (p : Fin 4) (d : Int) (hd : d = 1 ∨ d = -1) :
    wrapIdx ((p : Nat) + d) ≠ p := by
  rcases hd with h | h <;> subst h <;> fin_cases p <;> decide

/-- Hands after a force-draw followed by the generic turn advance: only the
current seat's hand (the victim, whose pointer the caller already moved)
changes, and it grows by `amt`. -/
theorem forceDraw_hands_spec (σ : Nat → Nat → Nat) (amt : Nat) (g2 : GameState)
    (hdk : AllSome g2.deck) (hdc : AllSome g2.discardPile)
    (hne : g2.discardPile ≠ [])
    (hpool : amt + 1 ≤ g2.deck.length + g2.discardPile.length) :
    ((nextTurn (forceDraw σ amt g2)).hands g2.currentPlayerIndex).length
        = (g2.hands g2.currentPlayerIndex).length + amt
      ∧ ∀ q : Fin 4, q ≠ g2.currentPlayerIndex →
          (nextTurn (forceDraw σ amt g2)).hands q = g2.hands q := by
  have hfh : (forceDraw σ amt g2).hands
      = Function.update g2.hands g2.currentPlayerIndex
          ((forceDrawAux σ 0 amt g2.deck g2.discardPile
            (g2.hands g2.currentPlayerIndex)).2.2) := rfl
  rw [nextTurn_hands, hfh]
  constructor
  · rw [Function.update_same]
    exact forceDrawAux_growth σ amt 0 _ _ _ hdk hdc hne hpool
  · intro q hq
    exact Function.update_noteq hq _ _

theorem effectDispatch_force (σ : Nat → Nat → Nat) (π : Fin 4 → Nat)
    (c : Card) (amt : Nat) (gg : GameState)
    (hk : (c.value = .v2 ∧ amt = 2) ∨ (c.value = .vX ∧ amt = 5)) :
    effectDispatch σ π c gg
      = (nextTurn (forceDraw σ amt (advancePointer gg)), .returnedTrue) := by
  rcases c with ⟨cs, cv⟩
  rcases hk with ⟨hcv, hamt⟩ | ⟨hcv, hamt⟩ <;>
    simp only [] at hcv <;> subst hcv <;> subst hamt <;> rfl

/-- C5. A non-winning play of a 2 (resp. Joker) by the current seat, given
that the deck together with the recyclable discard cards holds at least 2
(resp. 5) cards, makes the hand of exactly one seat grow — the seat
immediately following the actor in the current direction, wrapping mod
4 — by exactly 2 (resp. 5) cards; the actor's hand shrinks by the played
card and every other hand is untouched. -/
theorem force_draw_effect (σ : Nat → Nat → Nat) (π : Fin 4 → Nat)
    (g : GameState) (p : Fin 4) (i : Nat) (c : Card) (amt : Nat)
    (hgo : g.gameOver = false)
    (hcur : p = g.currentPlayerIndex)
    (hcard : (g.hands p)[i]? = some c)
    (hkind : (c.value = .v2 ∧ amt = 2) ∨ (c.value = .vX ∧ amt = 5))
    (hlen : 2 ≤ (g.hands p).length)
    (hvalid : isValidMoveG g (some c) = some true)
    (hdir : g.direction = 1 ∨ g.direction = -1)
    (hdeckS : AllSome g.deck) (hdpS : AllSome g.discardPile)
    (hpool : amt ≤ g.deck.length + g.discardPile.length) :
    ((handleCardPlay σ π g p i).1.hands (wrapIdx ((p : Nat) + g.direction))).length
        = (g.hands (wrapIdx ((p : Nat) + g.direction))).length + amt
      ∧ ((handleCardPlay σ π g p i).1.hands p).length = (g.hands p).length - 1
      ∧ ∀ q : Fin 4, q ≠ p → q ≠ wrapIdx ((p : Nat) + g.direction) →
          (handleCardPlay σ π g p i).1.hands q = g.hands q := by
  obtain ⟨hi, -⟩ := List.getElem?_eq_some_iff.1 hcard
  have hvp : wrapIdx ((p : Nat) + g.direction) ≠ p := wrapIdx_add_ne p g.direction hdir
  have herase : ((g.hands p).eraseIdx i).length = (g.hands p).length - 1 := by
    rw [List.length_eraseIdx, if_pos hi]
  have h1 : handleCardPlay σ π g p i = playValid σ π g p i := by
    unfold handleCardPlay
    rw [if_neg (by simp [hgo]), hcard, hvalid]
  have h2 : playValid σ π g p i
      = effectDispatch σ π c
          { g with hands := Function.update g.hands p ((g.hands p).eraseIdx i),
                   discardPile := g.discardPile ++ [some c] } := by
    unfold playValid
    rw [hcard]
    simp only []
    rw [if_neg (by
      show ¬(Function.update g.hands p ((g.hands p).eraseIdx i) p).length = 0
      rw [Function.update_same, herase]
      omega)]
  set g1 : GameState :=
    { g with hands := Function.update g.hands p ((g.hands p).eraseIdx i),
             discardPile := g.discardPile ++ [some c] } with hg1
  subst hcur
  have hg2idx : (advancePointer g1).currentPlayerIndex
      = wrapIdx ((g.currentPlayerIndex : Nat) + g.direction) := rfl
  have hg2hands : (advancePointer g1).hands = g1.hands := rfl
  have hdcS1 : AllSome g1.discardPile := by
    refine allSome_append hdpS ?_
    intro x hx
    cases hx with
    | head => rfl
    | tail _ h => cases h
  have hdne1 : g1.discardPile ≠ [] := by
    show g.discardPile ++ [some c] ≠ []
    simp
  have hpool1 : amt + 1 ≤ g1.deck.length + g1.discardPile.length := by
    show amt + 1 ≤ g.deck.length + (g.discardPile ++ [some c]).length
    rw [List.length_append]
    simp only [List.length_cons, List.length_nil]
    omega
  have hspec := forceDraw_hands_spec σ amt (advancePointer g1) hdeckS hdcS1 hdne1 hpool1
  rw [hg2idx, hg2hands] at hspec
  obtain ⟨hgrow, hother⟩ := hspec
  rw [h1, h2, effectDispatch_force σ π c amt g1 hkind]
  simp only []
  have hv1 : g1.hands (wrapIdx ((g.currentPlayerIndex : Nat) + g.direction))
      = g.hands (wrapIdx ((g.currentPlayerIndex : Nat) + g.direction)) := by
    show Function.update g.hands g.currentPlayerIndex
        ((g.hands g.currentPlayerIndex).eraseIdx i)
        (wrapIdx ((g.currentPlayerIndex : Nat) + g.direction))
      = _
    exact Function.update_noteq hvp _ _
  refine ⟨?_, ?_, ?_⟩
  · rw [hgrow, hv1]
  · rw [hother _ (Ne.symm hvp)]
    show (Function.update g.hands g.currentPlayerIndex
        ((g.hands g.currentPlayerIndex).eraseIdx i) g.currentPlayerIndex).length = _
    rw [Function.update_same, herase]
  · intro q hqp hqv
    rw [hother q hqv]
    exact Function.update_noteq hqp _ _

theorem force_draw_effect_witness :
    (((handleCardPlay σ0 π0 gC5 0 0).1.hands (wrapIdx ((0 : Nat) + gC5.direction))).length
        = (gC5.hands (wrapIdx ((0 : Nat) + gC5.direction))).length + 2)
      ∧ ((handleCardPlay σ0 π0 gC5 0 0).1.hands 0).length = (gC5.hands 0).length - 1
      ∧ ∀ q : Fin 4, q ≠ 0 → q ≠ wrapIdx ((0 : Nat) + gC5.direction) →
          (handleCardPlay σ0 π0 gC5 0 0).1.hands q = gC5.hands q :=
  force_draw_effect σ0 π0 gC5 0 0 (Card.mk .H .v2) 2 rfl rfl rfl
    (Or.inl ⟨rfl, rfl⟩) (by decide) (by decide) (Or.inl rfl)
    (by decide) (by decide) (by decide)

theorem passStep_apply (dir : Int) (passed : Fin 4 → Option Card)
    (hs : Fin 4 → List Card) (i q : Fin 4) :
    passStep dir passed hs i q
      = if q = wrapIdx ((i : Nat) + dir) then hs q ++ (passed i).toList
        else hs q := by
  unfold passStep
  rcases passed i with _ | c
  · simp only [Option.toList, List.append_nil]
    split <;> rfl
  · simp only [Option.toList]
    rw [Function.update_apply]
    split_ifs with h
    · subst h
      rfl
    · rfl

theorem passFold_apply (dir : Int) (hdir : dir = 1 ∨ dir = -1)
    (passed : Fin 4 → Option Card) (hs : Fin 4 → List Card) (s : Fin 4) :
    (List.finRange 4).foldl (passStep dir passed) hs s
      = hs s ++ (passed (wrapIdx ((s : Nat) - dir))).toList := by
  have hfr : List.finRange 4 = [0, 1, 2, 3] := by decide
  rw [hfr]
  simp only [List.foldl_cons, List.foldl_nil]
  rcases hdir with h | h <;> subst h <;> fin_cases s <;>
    simp +decide [passStep_apply, wrapIdx]

theorem removeOneRandomCard_empty (r : Nat) (hand : List Card) (h : hand = []) :
    removeOneRandomCard r hand = (none, hand) := by
  subst h
  rfl

theorem removeOneRandomCard_nonempty (r : Nat) (hand : List Card) (h : hand ≠ []) :
    ∃ c, (removeOneRandomCard r hand).1 = some c ∧ c ∈ hand
      ∧ (removeOneRandomCard r hand).2.length + 1 = hand.length := by
  have hpos : 0 < hand.length := List.length_pos.2 h
  have hlt : r % hand.length < hand.length := Nat.mod_lt _ hpos
  unfold removeOneRandomCard playCard
  rw [if_neg (by omega)]
  refine ⟨hand[r % hand.length], ?_, List.getElem_mem hlt, ?_⟩
  · simp [List.getElem?_eq_getElem hlt]
  · rw [List.length_eraseIdx, if_pos hlt]
    omega

theorem sumHands_card (h : Fin 4 → List Card) :
    (sumHands h).card
      = (h 0).length + (h 1).length + (h 2).length + (h 3).length := by
  unfold sumHands
  rw [Fin.sum_univ_four]
  simp [Multiset.coe_card]
  omega

/-- C6. The 10 effect conserves the total number of cards across the four
hands: every seat with a non-empty hand gives up exactly one card (chosen
by the injected random index) to the seat next to it in the current
direction (its own position plus the direction, wrapping mod 4), a seat
with an empty hand contributes nothing but still receives from its
predecessor normally; the current-player pointer, the deck, and the
discard pile are all unchanged. -/
theorem pass_rule_spec (π : Fin 4 → Nat) (g : GameState)
    (hdir : g.direction = 1 ∨ g.direction = -1) :
    (handlePassCardRule π g).deck = g.deck
      ∧ (handlePassCardRule π g).discardPile = g.discardPile
      ∧ (handlePassCardRule π g).currentPlayerIndex = g.currentPlayerIndex
      ∧ (handlePassCardRule π g).direction = g.direction
      ∧ (handlePassCardRule π g).gameOver = g.gameOver
      ∧ (∀ s : Fin 4, (handlePassCardRule π g).hands s
          = (removeOneRandomCard (π s) (g.hands s)).2
            ++ ((removeOneRandomCard (π (wrapIdx ((s : Nat) - g.direction)))
                  (g.hands (wrapIdx ((s : Nat) - g.direction)))).1).toList)
      ∧ (∀ s : Fin 4, g.hands s = [] →
          (removeOneRandomCard (π s) (g.hands s)).1 = none
            ∧ (removeOneRandomCard (π s) (g.hands s)).2 = g.hands s)
      ∧ (∀ s : Fin 4, g.hands s ≠ [] →
          ∃ c, (removeOneRandomCard (π s) (g.hands s)).1 = some c
            ∧ c ∈ g.hands s
            ∧ ((removeOneRandomCard (π s) (g.hands s)).2).length + 1
                = (g.hands s).length)
      ∧ ((handlePassCardRule π g).hands 0).length
          + ((handlePassCardRule π g).hands 1).length
          + ((handlePassCardRule π g).hands 2).length
          + ((handlePassCardRule π g).hands 3).length
        = (g.hands 0).length + (g.hands 1).length
          + (g.hands 2).length + (g.hands 3).length := by
  refine ⟨rfl, rfl, rfl, rfl, rfl, ?_, ?_, ?_, ?_⟩
  · intro s
    exact passFold_apply g.direction hdir
      (fun t => (removeOneRandomCard (π t) (g.hands t)).1)
      (fun t => (removeOneRandomCard (π t) (g.hands t)).2) s
  · intro s hs0
    rw [removeOneRandomCard_empty (π s) (g.hands s) hs0]
    exact ⟨rfl, rfl⟩
  · intro s hs0
    exact removeOneRandomCard_nonempty (π s) (g.hands s) hs0
  · have hc := congrArg Multiset.card (sumHands_passRule π g)
    rw [sumHands_card, sumHands_card] at hc
    exact hc

theorem pass_rule_spec_witness :
    (handlePassCardRule π0 gC6).deck = gC6.deck
      ∧ (handlePassCardRule π0 gC6).discardPile = gC6.discardPile
      ∧ (handlePassCardRule π0 gC6).currentPlayerIndex = gC6.currentPlayerIndex
      ∧ (handlePassCardRule π0 gC6).direction = gC6.direction
      ∧ (handlePassCardRule π0 gC6).gameOver = gC6.gameOver
      ∧ (∀ s : Fin 4, (handlePassCardRule π0 gC6).hands s
          = (removeOneRandomCard (π0 s) (gC6.hands s)).2
            ++ ((removeOneRandomCard (π0 (wrapIdx ((s : Nat) - gC6.direction)))
                  (gC6.hands (wrapIdx ((s : Nat) - gC6.direction)))).1).toList)
      ∧ (∀ s : Fin 4, gC6.hands s = [] →
          (removeOneRandomCard (π0 s) (gC6.hands s)).1 = none
            ∧ (removeOneRandomCard (π0 s) (gC6.hands s)).2 = gC6.hands s)
      ∧ (∀ s : Fin 4, gC6.hands s ≠ [] →
          ∃ c, (removeOneRandomCard (π0 s) (gC6.hands s)).1 = some c
            ∧ c ∈ gC6.hands s
            ∧ ((removeOneRandomCard (π0 s) (gC6.hands s)).2).length + 1
                = (gC6.hands s).length)
      ∧ ((handlePassCardRule π0 gC6).hands 0).length
          + ((handlePassCardRule π0 gC6).hands 1).length
          + ((handlePassCardRule π0 gC6).hands 2).length
          + ((handlePassCardRule π0 gC6).hands 3).length
        = (gC6.hands 0).length + (gC6.hands 1).length
          + (gC6.hands 2).length + (gC6.hands 3).length :=
  pass_rule_spec π0 gC6 (Or.inl rfl)

theorem dealOne_spec (dh : List (Option Card) × (Fin 4 → List Card)) (p : Fin 4)
    (hne : dh.1 ≠ []) (hsome : AllSome dh.1) :
    (dealOne dh p).1 = dh.1.dropLast
      ∧ AllSome (dealOne dh p).1
      ∧ (∀ q : Fin 4, q ≠ p → (dealOne dh p).2 q = dh.2 q)
      ∧ ((dealOne dh p).2 p).length = (dh.2 p).length + 1 := by
  obtain ⟨c, hc⟩ := getLast_join_eq_some hne hsome
  refine ⟨rfl, allSome_dropLast hsome, ?_, ?_⟩
  · intro q hq
    exact Function.update_noteq hq _ _
  · show (Function.update dh.2 p (receiveCard (dh.2 p) dh.1.getLast?.join) p).length = _
    rw [Function.update_same, hc, receiveCard_eq]
    simp

theorem dealRound_spec (dh : List (Option Card) × (Fin 4 → List Card))
    (hlen4 : 4 ≤ dh.1.length) (hsome : AllSome dh.1) :
    (dealRound dh).1.length = dh.1.length - 4
      ∧ AllSome (dealRound dh).1
      ∧ ∀ q : Fin 4, ((dealRound dh).2 q).length = (dh.2 q).length + 1 := by
  have hfr : List.finRange 4 = [0, 1, 2, 3] := by decide
  have hne0 : dh.1 ≠ [] := by
    intro h
    rw [h] at hlen4
    simp at hlen4
  obtain ⟨e1, hs1, ho1, hl1⟩ := dealOne_spec dh 0 hne0 hsome
  have len1 : (dealOne dh 0).1.length = dh.1.length - 1 := by
    rw [e1, List.length_dropLast]
  have hne1 : (dealOne dh 0).1 ≠ [] := by
    intro h
    rw [h] at len1
    simp at len1
    omega
  obtain ⟨e2, hs2, ho2, hl2⟩ := dealOne_spec (dealOne dh 0) 1 hne1 hs1
  have len2 : (dealOne (dealOne dh 0) 1).1.length = dh.1.length - 2 := by
    rw [e2, List.length_dropLast, len1]
    omega
  have hne2 : (dealOne (dealOne dh 0) 1).1 ≠ [] := by
    intro h
    rw [h] at len2
    simp at len2
    omega
  obtain ⟨e3, hs3, ho3, hl3⟩ := dealOne_spec (dealOne (dealOne dh 0) 1) 2 hne2 hs2
  have len3 : (dealOne (dealOne (dealOne dh 0) 1) 2).1.length = dh.1.length - 3 := by
    rw [e3, List.length_dropLast, len2]
    omega
  have hne3 : (dealOne (dealOne (dealOne dh 0) 1) 2).1 ≠ [] := by
    intro h
    rw [h] at len3
    simp at len3
    omega
  obtain ⟨e4, hs4, ho4, hl4⟩ :=
    dealOne_spec (dealOne (dealOne (dealOne dh 0) 1) 2) 3 hne3 hs3
  have len4 : (dealOne (dealOne (dealOne (dealOne dh 0) 1) 2) 3).1.length
      = dh.1.length - 4 := by
    rw [e4, List.length_dropLast, len3]
    omega
  have hfold : dealRound dh = dealOne (dealOne (dealOne (dealOne dh 0) 1) 2) 3 := by
    unfold dealRound
    rw [hfr]
    simp only [List.foldl_cons, List.foldl_nil]
  rw [hfold]
  refine ⟨len4, hs4, ?_⟩
  intro q
  fin_cases q
  · show ((dealOne (dealOne (dealOne (dealOne dh 0) 1) 2) 3).2 0).length
        = (dh.2 0).length + 1
    rw [ho4 0 (by decide), ho3 0 (by decide), ho2 0 (by decide), hl1]
  · show ((dealOne (dealOne (dealOne (dealOne dh 0) 1) 2) 3).2 1).length
        = (dh.2 1).length + 1
    rw [ho4 1 (by decide), ho3 1 (by decide), hl2, ho1 1 (by decide)]
  · show ((dealOne (dealOne (dealOne (dealOne dh 0) 1) 2) 3).2 2).length
        = (dh.2 2).length + 1
    rw [ho4 2 (by decide), hl3, ho2 2 (by decide), ho1 2 (by decide)]
  · show ((dealOne (dealOne (dealOne (dealOne dh 0) 1) 2) 3).2 3).length
        = (dh.2 3).length + 1
    rw [hl4, ho3 3 (by decide), ho2 3 (by decide), ho1 3 (by decide)]

theorem dealFoldN_spec :
    ∀ (n : Nat) (dh : List (Option Card) × (Fin 4 → List Card)),
    4 * n ≤ dh.1.length → AllSome dh.1 →
    ((List.range n).foldl (fun dh _ => dealRound dh) dh).1.length = dh.1.length - 4 * n
      ∧ AllSome ((List.range n).foldl (fun dh _ => dealRound dh) dh).1
      ∧ ∀ q : Fin 4,
          (((List.range n).foldl (fun dh _ => dealRound dh) dh).2 q).length
            = (dh.2 q).length + n := by
  intro n
  induction n with
  | zero =>
    intro dh _ hsome
    exact ⟨by simp, hsome, fun q => by simp⟩
  | succ n ih =>
    intro dh hlen hsome
    rw [List.range_succ, List.foldl_append]
    simp only [List.foldl_cons, List.foldl_nil]
    obtain ⟨ihl, ihs, ihh⟩ := ih dh (by omega) hsome
    obtain ⟨rl, rs, rh⟩ := dealRound_spec _ (by omega) ihs
    refine ⟨by rw [rl, ihl]; omega, rs, fun q => by rw [rh, ihh]; omega⟩

theorem allSome_map_some (l : List Card) : AllSome (l.map some) := by
  intro x hx
  obtain ⟨c, -, rfl⟩ := List.mem_map.1 hx
  rfl

theorem allSome_shuffle (f : Nat → Nat) {l : List (Option Card)} (h : AllSome l) :
    AllSome (shuffleWith f l) :=
  fun x hx => h x (((shuffleWith_perm f l).mem_iff).1 hx)

theorem init_fields (f : Nat → Nat) (r : Nat) (g : GameState) :
    Game.init f r g
      = { deck := ((List.range 7).foldl (fun dh _ => dealRound dh)
            (shuffleWith f g.deck, fun _ => ([] : List Card))).1.dropLast,
          hands := ((List.range 7).foldl (fun dh _ => dealRound dh)
            (shuffleWith f g.deck, fun _ => ([] : List Card))).2,
          discardPile := [((List.range 7).foldl (fun dh _ => dealRound dh)
            (shuffleWith f g.deck, fun _ => ([] : List Card))).1.getLast?.join],
          currentPlayerIndex := ⟨r % 4, Nat.mod_lt r (by omega)⟩,
          direction := g.direction,
          gameOver := g.gameOver } := rfl

theorem init_spec_general (f : Nat → Nat) (r : Nat) (g : GameState)
    (hlen : g.deck.length = 54) (hsome : AllSome g.deck) :
    (∀ s : Fin 4, ((Game.init f r g).hands s).length = 7)
      ∧ (Game.init f r g).discardPile.length = 1
      ∧ AllSome (Game.init f r g).discardPile
      ∧ (Game.init f r g).deck.length = 25
      ∧ AllSome (Game.init f r g).deck
      ∧ ((Game.init f r g).currentPlayerIndex : Nat) = r % 4
      ∧ (Game.init f r g).gameOver = g.gameOver
      ∧ (Game.init f r g).direction = g.direction := by
  have hlen54 : (shuffleWith f g.deck).length = 54 := by
    rw [shuffleWith_length, hlen]
  have hsome54 : AllSome (shuffleWith f g.deck) := allSome_shuffle f hsome
  obtain ⟨hdl, hds, hdh⟩ := dealFoldN_spec 7
    (shuffleWith f g.deck, fun _ => ([] : List Card))
    (by show 4 * 7 ≤ (shuffleWith f g.deck).length
        rw [hlen54]
        omega) hsome54
  rw [init_fields f r g]
  generalize hgen : (List.range 7).foldl (fun dh _ => dealRound dh)
    ((shuffleWith f g.deck, fun _ => ([] : List Card)) :
      List (Option Card) × (Fin 4 → List Card)) = dh0
  rw [hgen] at hdl hds hdh
  have hp1 : ((shuffleWith f g.deck, fun _ => ([] : List Card)) :
      List (Option Card) × (Fin 4 → List Card)).1
      = shuffleWith f g.deck := rfl
  rw [hp1, hlen54] at hdl
  have hd26 : dh0.1.length = 26 := by rw [hdl]
  have hdne : dh0.1 ≠ [] := by
    intro h
    rw [h] at hd26
    simp at hd26
  obtain ⟨c, hc⟩ := getLast_join_eq_some hdne hds
  refine ⟨?_, ?_, ?_, ?_, ?_, ?_, ?_, ?_⟩
  · intro s
    show (dh0.2 s).length = 7
    rw [hdh s]
    rfl
  · show [dh0.1.getLast?.join].length = 1
    rfl
  · show AllSome [dh0.1.getLast?.join]
    intro x hx
    cases hx with
    | head => rw [hc]; rfl
    | tail _ h => cases h
  · show dh0.1.dropLast.length = 25
    rw [List.length_dropLast, hd26]
  · show AllSome dh0.1.dropLast
    exact allSome_dropLast hds
  · show ((⟨r % 4, Nat.mod_lt r (by omega)⟩ : Fin 4) : Nat) = r % 4
    rfl
  · show g.gameOver = g.gameOver
    rfl
  · show g.direction = g.direction
    rfl

/-- C9 amended. After `init()` on the freshly constructed state (full
54-card deck, `gameOver` false) — i.e. for the one `init` the source ever
runs, inside `new Game()` — each seat holds exactly 7 cards, the discard
pile holds exactly 1 real card, the deck holds the remaining 25 cards, the
starting seat is the injected random value mod 4 (hence in [0,3]), and the
game is not over. `init()` itself neither rebuilds the deck nor clears
`gameOver`, so a hypothetical re-init after a finished game does not
restore this postcondition. -/
theorem init_deal_spec (f : Nat → Nat) (r : Nat) :
    (∀ s : Fin 4, ((mkGame f r).hands s).length = 7)
      ∧ (mkGame f r).discardPile.length = 1
      ∧ AllSome (mkGame f r).discardPile
      ∧ (mkGame f r).deck.length = 25
      ∧ AllSome (mkGame f r).deck
      ∧ ((mkGame f r).currentPlayerIndex : Nat) = r % 4
      ∧ (mkGame f r).gameOver = false
      ∧ (mkGame f r).direction = 1 := by
  obtain ⟨h1, h2, h3, h4, h5, h6, h7, h8⟩ := init_spec_general f r constructedState
    (by show (fullDeck.map some).length = 54
        rw [List.length_map]
        decide)
    (allSome_map_some fullDeck)
  exact ⟨h1, h2, h3, h4, h5, h6, h7, h8⟩

/-- C9 counterexample. `init()` does not reset the deck and does not clear
`gameOver`: called on a finished game whose deck is exhausted, it deals no
cards (every hand ends up empty, not 7 cards) and leaves the game over. -/
theorem reinit_post_game_violates_deal :
    ((Game.init f0 0 gC9).hands 0).length = 0
      ∧ (Game.init f0 0 gC9).gameOver = true
      ∧ (Game.init f0 0 gC9).deck = [] := by
  refine ⟨?_, ?_, ?_⟩ <;> decide

theorem draw_recycle_spec_witness :
    (gC8b.discardPile.length ≤ 1 → executeDraw f0 gC8b 3 = advancePointer gC8b)
      ∧ (2 ≤ gC8b.discardPile.length → AllSome gC8b.discardPile →
          (executeDraw f0 gC8b 3).discardPile = gC8b.discardPile.getLast?.toList
            ∧ (executeDraw f0 gC8b 3).deck.length = gC8b.discardPile.length - 2
            ∧ ((executeDraw f0 gC8b 3).hands 3).length = (gC8b.hands 3).length + 1
            ∧ ∀ q : Fin 4, q ≠ 3 → (executeDraw f0 gC8b 3).hands q = gC8b.hands q) :=
  draw_recycle_spec f0 gC8b 3 rfl rfl (by decide)

end Pesten
